import Mathlib

/-!
A shallow embedding of the session/catalog engine of `src/App.jsx`
(a React-Native audio recorder).  JS strings are modelled as `List Char`,
JS numbers appearing here (millisecond timestamps, resource handles) as
`Nat`, and the React `useState` cell block as an explicit `AppState`
record.  Each `async` function of the source becomes a pure function from
the current state (plus the outcomes of the platform calls it awaits,
passed as explicit parameters) to the next state paired with the list of
externally visible platform effects it performed, in order.
-/

namespace RecApp

/-- JS `String.prototype.split` with a single-character separator:
`"rec_100.wav".split('_') = ["rec", "100.wav"]`, always non-empty. -/
def splitOnChar (sep : Char) : List Char → List (List Char)
  | [] => [[]]
  | c :: cs =>
    match splitOnChar sep cs with
    | [] => [[]]
    | t :: ts => if c = sep then [] :: t :: ts else (c :: t) :: ts

/-- The decimal digit character for `d` (`0 ↦ '0'`, …, `9 ↦ '9'`). -/
def digitChar (d : Nat) : Char := Char.ofNat (48 + d)

/-- Fuel-driven decimal printer, mirroring how a JS number is converted to
a string by template interpolation (`` `rec_${timestamp}` ``): emits the
decimal digits of `n` in front of `acc`. -/
def natToCharsCore : Nat → Nat → List Char → List Char
  | 0, _, acc => acc
  | fuel + 1, n, acc =>
    if n < 10 then digitChar (n % 10) :: acc
    else natToCharsCore fuel (n / 10) (digitChar (n % 10) :: acc)

/-- Decimal representation of a natural number as a character list,
modelling JS number-to-string conversion for non-negative integers. -/
def natToChars (n : Nat) : List Char := natToCharsCore (n + 1) n []

/-- Value of a digit string read left to right in base 10. -/
def parseVal (l : List Char) : Nat :=
  l.foldl (fun a c => a * 10 + (c.toNat - 48)) 0

/-- A JS value that can sit in the `date` field of a catalog entry:
either a number (`Date.now()` fallback) or a string cut out of the
filename. -/
inductive JsVal where
  | num : Nat → JsVal
  | str : List Char → JsVal
deriving DecidableEq, Repr

/-- JS `ToNumber` as it applies to the `date` values the program builds:
a number is itself, the empty string is `0`, a non-empty all-digit string
is its decimal value, and any other string is NaN (here `none`).
(The general JS `ToNumber` also accepts signs, fractions and exponents;
no `date` value built by this program takes those shapes, and filenames
holding them would land in the NaN bucket of real engines only when not
numeric, exactly as here for the digit/garbage dichotomy the spec talks
about.) -/
def jsToNumber : JsVal → Option Nat
  | .num n => some n
  | .str s =>
    if s = [] then some 0
    else if s.all (fun c => c.isDigit) then some (parseVal s) else none

/-- `src/App.jsx` line 72:
`date: filename.split('_')[1]?.split('.')[0] || Date.now()`.
The `||` fallback fires exactly when the left operand is falsy:
`undefined` (no `'_'` in the name) or the empty string. -/
def extractDate (now : Nat) (filename : List Char) : JsVal :=
  match (splitOnChar '_' filename).get? 1 with
  | none => .num now
  | some s =>
    let seg := (splitOnChar '.' s).headD []
    if seg = [] then .num now else .str seg

/-- One element of the `recordings` array built by `loadRecordings`. -/
structure Entry where
  name : List Char
  uri : List Char
  date : JsVal
deriving DecidableEq, Repr

/-- The object literal of `loadRecordings`'s `files.map` callback. -/
def mkEntry (now : Nat) (dir : List Char) (filename : List Char) : Entry :=
  { name := filename, uri := dir ++ filename, date := extractDate now filename }

/-- The comparator `(a, b) => b.date - a.date` of `loadRecordings`,
after the `SortCompare` step of the JS spec that maps a NaN comparator
result to `0`.  Subtraction coerces each `date` with `ToNumber`. -/
def jsCmp (a b : Entry) : Int :=
  match jsToNumber a.date, jsToNumber b.date with
  | some na, some nb => (nb : Int) - (na : Int)
  | _, _ => 0

/-- Insert `x` in front of the first element it must (or may, on a tie)
precede.  Folding this over the input models `Array.prototype.sort`,
which ES2019 requires to be a stable sort consistent with the
comparator. -/
def jsSortInsert (x : Entry) : List Entry → List Entry
  | [] => [x]
  | y :: ys => if jsCmp x y ≤ 0 then x :: y :: ys else y :: jsSortInsert x ys

/-- Stable sort by the comparator `jsCmp`: the model of
`.sort((a, b) => b.date - a.date)`. -/
def jsSort (l : List Entry) : List Entry := l.foldr jsSortInsert []

/-- The `fileList` value of `loadRecordings` (lines 69–73): map the
directory listing to entries, then sort newest first. -/
def fileList (now : Nat) (dir : List Char) (files : List (List Char)) :
    List Entry :=
  jsSort (files.map (mkEntry now dir))

/-- `Platform.OS` as consulted by `getFileExtension`. -/
inductive PlatformOS where
  | ios
  | android
  | web
deriving DecidableEq, Repr

/-- `getFileExtension` (lines 22–26) as a character list. -/
def getFileExtension : PlatformOS → List Char
  | .ios => ['.', 'w', 'a', 'v']
  | .android => ['.', 'o', 'g', 'g']
  | .web => ['.', 'm', '4', 'a']

/-- The filename `stopRecording` commits:
`` `rec_${timestamp}${extension}` `` (line 150). -/
def commitFilename (p : PlatformOS) (timestamp : Nat) : List Char :=
  ['r', 'e', 'c', '_'] ++ natToChars timestamp ++ getFileExtension p

/-- The `useState` cells of `App` that the engine functions read and
write.  Recording and sound handles are opaque platform objects,
modelled as `Nat` tags. -/
structure AppState where
  recording : Option Nat
  sound : Option Nat
  isRecording : Bool
  isPlaying : Bool
  playingUri : Option (List Char)
  recordings : List Entry
deriving DecidableEq, Repr

/-- Externally visible platform calls performed by an engine function,
listed in the order the source awaits them. -/
inductive Effect where
  | requestPermission
  | setAudioMode
  | captureOpened (h : Nat)
  | captureStopped (h : Nat)
  | fileMoved (src dst : List Char)
  | fileDeleted (uri : List Char)
  | soundCreated (h : Nat) (uri : List Char)
  | soundPaused (h : Nat)
  | soundUnloaded (h : Nat)
  | alertShown
  | dirListed
deriving DecidableEq, Repr

/-- `permissionResponse.status` of `Audio.usePermissions`. -/
inductive PermStatus where
  | granted
  | denied
  | undetermined
deriving DecidableEq, Repr

/-- Outcomes of the platform calls `startRecording` awaits:
`requestPermission()`, `Audio.setAudioModeAsync`, and
`Audio.Recording.createAsync` (`.error` is a thrown rejection, caught
by the function's `try`/`catch`). -/
structure StartInputs where
  requestResult : Except Unit PermStatus
  audioModeResult : Except Unit Unit
  openResult : Except Unit Nat
deriving Repr

/-- The tail of `startRecording` after the permission block: configure
the audio mode, then open the capture device; on success store the new
handle and set `isRecording` (lines 91–130), on a throw fall into the
`catch` that alerts and leaves every state cell untouched. -/
def startAfterPerm (st : AppState) (fx : List Effect) (inp : StartInputs) :
    AppState × List Effect :=
  match inp.audioModeResult with
  | .error _ => (st, fx ++ [.alertShown])
  | .ok _ =>
    match inp.openResult with
    | .error _ => (st, fx ++ [.setAudioMode, .alertShown])
    | .ok h =>
      ({ st with recording := some h, isRecording := true },
        fx ++ [.setAudioMode, .captureOpened h])

/-- `startRecording` (lines 82–135).  Note the source inspects no state
cell at all: when the permission status is not `'granted'` it awaits
`requestPermission()` but ignores the outcome and proceeds to the device
open unconditionally. -/
def startRecording (st : AppState) (permStatus : PermStatus)
    (inp : StartInputs) : AppState × List Effect :=
  if permStatus = .granted then startAfterPerm st [] inp
  else
    match inp.requestResult with
    | .error _ => (st, [.requestPermission, .alertShown])
    | .ok _ => startAfterPerm st [.requestPermission] inp

/-- `stopRecording` (lines 137–163).  Returns the next state, the new
directory content, and the effects.  `moveOk` is whether
`FileSystem.moveAsync` succeeded; on success the nested
`loadRecordings()` re-reads the directory (modelled as enumerating the
post-move content). -/
def stopRecording (p : PlatformOS) (dir : List Char) (now : Nat)
    (tempUri : List Char) (st : AppState) (files : List (List Char))
    (moveOk : Bool) : AppState × List (List Char) × List Effect :=
  match st.recording with
  | none => (st, files, [])
  | some h =>
    let st1 := { st with isRecording := false, recording := none }
    let newName := commitFilename p now
    if moveOk then
      let files' := files ++ [newName]
      ({ st1 with recordings := fileList now dir files' }, files',
        [.captureStopped h, .fileMoved tempUri (dir ++ newName), .dirListed])
    else
      (st1, files, [.captureStopped h])

/-- `playSound`'s load-and-play tail (lines 180–195): create the sound
with `shouldPlay: true`; on success store the handle, the uri, and the
playing flag; the `catch` alerts and leaves the cells untouched. -/
def mkPlay (st : AppState) (uri : List Char)
    (createResult : Except Unit Nat) (fx : List Effect) :
    AppState × List Effect :=
  match createResult with
  | .error _ => (st, fx ++ [.alertShown])
  | .ok h2 =>
    ({ st with sound := some h2, playingUri := some uri, isPlaying := true },
      fx ++ [.soundCreated h2 uri])

/-- `playSound` (lines 166–200): toggling the uri that is currently
playing pauses it (no unload) and clears `isPlaying`; otherwise any
loaded sound is unloaded first and the new one created. -/
def playSound (st : AppState) (uri : List Char)
    (createResult : Except Unit Nat) : AppState × List Effect :=
  match st.sound with
  | some h =>
    if st.playingUri = some uri ∧ st.isPlaying = true then
      ({ st with isPlaying := false }, [.soundPaused h])
    else
      mkPlay st uri createResult [.soundUnloaded h]
  | none => mkPlay st uri createResult []

/-- The `setOnPlaybackStatusUpdate` callback registered by `playSound`
(lines 190–195): on `didJustFinish` clear `isPlaying` and `playingUri`;
no other cell is written and no platform call is made. -/
def onPlaybackStatusUpdate (st : AppState) (didJustFinish : Bool) :
    AppState × List Effect :=
  if didJustFinish then
    ({ st with isPlaying := false, playingUri := none }, [])
  else (st, [])

/-- `deleteRecording` (lines 203–217): if the sound being deleted is the
loaded one, unload it and clear the playback cells (the `sound` cell
itself is left holding the defunct handle); then delete the file and
re-enumerate.  `FileSystem.deleteAsync` on a missing path throws, which
the `catch` swallows after the unload already happened. -/
def deleteRecording (dir : List Char) (now : Nat) (st : AppState)
    (files : List (List Char)) (uri : List Char) :
    AppState × List (List Char) × List Effect :=
  let stopPart : AppState × List Effect :=
    match st.sound with
    | some h =>
      if st.playingUri = some uri then
        ({ st with playingUri := none, isPlaying := false },
          [.soundUnloaded h])
      else (st, [])
    | none => (st, [])
  let st1 := stopPart.1
  if ∃ f ∈ files, dir ++ f = uri then
    let files' := files.filter (fun f => decide (¬dir ++ f = uri))
    ({ st1 with recordings := fileList now dir files' }, files',
      stopPart.2 ++ [.fileDeleted uri, .dirListed])
  else (st1, files, stopPart.2)

/-- `loadRecordings` (lines 63–79) as invoked on its own: the try block
either fails while touching the directory (`.error`, the `catch` logs
and leaves all state untouched) or yields the directory content, from
which the view is rebuilt wholesale. -/
def loadRecordings (now : Nat) (dir : List Char) (st : AppState)
    (enumResult : Except Unit (List (List Char))) : AppState × List Effect :=
  match enumResult with
  | .error _ => (st, [])
  | .ok files =>
    ({ st with recordings := fileList now dir files }, [.dirListed])

/-- The catalog entries strictly ordered: `a`'s timestamp is a number
strictly above `b`'s. -/
def dateGt (a b : Entry) : Prop :=
  ∃ na nb, jsToNumber a.date = some na ∧ jsToNumber b.date = some nb ∧
    nb < na

/-- The record button's `onPress` (line 269):
`isRecording ? stopRecording : startRecording`.  The only caller of
`startRecording` in the program. -/
def recordButtonPress (p : PlatformOS) (dir : List Char) (now : Nat)
    (tempUri : List Char) (st : AppState) (files : List (List Char))
    (permStatus : PermStatus) (sinp : StartInputs) (moveOk : Bool) :
    AppState × List (List Char) × List Effect :=
  if st.isRecording then stopRecording p dir now tempUri st files moveOk
  else
    let r := startRecording st permStatus sinp
    (r.1, files, r.2)

/-! ### Lemmas about the filename machinery -/

theorem splitOnChar_ne_nil (sep : Char) (l : List Char) :
    splitOnChar sep l ≠ [] := by
  induction l with
  | nil => simp [splitOnChar]
  | cons c cs ih =>
    simp only [splitOnChar]
    match h : splitOnChar sep cs with
    | [] => exact absurd h ih
    | t :: ts =>
      by_cases hc : c = sep <;> simp [hc]

theorem splitOnChar_of_not_mem (sep : Char) (l : List Char)
    (h : ∀ c ∈ l, c ≠ sep) : splitOnChar sep l = [l] := by
  induction l with
  | nil => rfl
  | cons c cs ih =>
    have hc : c ≠ sep := h c (by simp)
    have ih' := ih (fun x hx => h x (by simp [hx]))
    simp only [splitOnChar, ih', hc, if_false]

theorem splitOnChar_append (sep : Char) (a b : List Char)
    (h : ∀ c ∈ a, c ≠ sep) :
    splitOnChar sep (a ++ sep :: b) = a :: splitOnChar sep b := by
  induction a with
  | nil =>
    simp only [List.nil_append, splitOnChar]
    match hb : splitOnChar sep b with
    | [] => exact absurd hb (splitOnChar_ne_nil sep b)
    | t :: ts => simp
  | cons c cs ih =>
    have hc : c ≠ sep := h c (by simp)
    have ih' := ih (fun x hx => h x (by simp [hx]))
    show splitOnChar sep (c :: (cs ++ sep :: b)) = _
    simp only [splitOnChar]
    rw [ih']
    simp [hc]

theorem digitChar_spec :
    ∀ d < 10, (digitChar d).isDigit = true ∧ (digitChar d).toNat = 48 + d ∧
      digitChar d ≠ '_' ∧ digitChar d ≠ '.' := by decide

theorem natToCharsCore_acc (fuel : Nat) :
    ∀ n acc, natToCharsCore fuel n acc = natToCharsCore fuel n [] ++ acc := by
  induction fuel with
  | zero => intro n acc; simp [natToCharsCore]
  | succ fuel ih =>
    intro n acc
    by_cases h : n < 10
    · simp [natToCharsCore, h]
    · simp only [natToCharsCore, h, if_false]
      rw [ih (n / 10) (digitChar (n % 10) :: acc),
        ih (n / 10) [digitChar (n % 10)]]
      simp

theorem natToCharsCore_fuel (n : Nat) :
    ∀ fuel₁ fuel₂ acc, n < fuel₁ → n < fuel₂ →
      natToCharsCore fuel₁ n acc = natToCharsCore fuel₂ n acc := by
  induction n using Nat.strong_induction_on with
  | _ n ih =>
    intro fuel₁ fuel₂ acc h1 h2
    match fuel₁, fuel₂ with
    | f1 + 1, f2 + 1 =>
      by_cases h : n < 10
      · simp [natToCharsCore, h]
      · simp only [natToCharsCore, h, if_false]
        have hlt : n / 10 < n := Nat.div_lt_self (by omega) (by omega)
        exact ih (n / 10) hlt f1 f2 _ (by omega) (by omega)

theorem natToChars_lt (n : Nat) (h : n < 10) :
    natToChars n = [digitChar n] := by
  simp [natToChars, natToCharsCore, h, Nat.mod_eq_of_lt h]

theorem natToChars_ge (n : Nat) (h : 10 ≤ n) :
    natToChars n = natToChars (n / 10) ++ [digitChar (n % 10)] := by
  have hlt : n / 10 < n := Nat.div_lt_self (by omega) (by omega)
  have h0 : natToChars n = natToCharsCore n (n / 10) [digitChar (n % 10)] := by
    simp [natToChars, natToCharsCore, Nat.not_lt.mpr h]
  rw [h0, natToCharsCore_fuel (n / 10) n (n / 10 + 1) _ (by omega) (by omega),
    natToCharsCore_acc]
  rfl

theorem parseVal_append_one (a : List Char) (c : Char) :
    parseVal (a ++ [c]) = parseVal a * 10 + (c.toNat - 48) := by
  simp [parseVal, List.foldl_append]

/-- The decimal printer emits a non-empty all-digit string that parses
back to the original number. -/
theorem natToChars_roundtrip (n : Nat) :
    natToChars n ≠ [] ∧ (natToChars n).all (fun c => c.isDigit) = true ∧
      parseVal (natToChars n) = n := by
  induction n using Nat.strong_induction_on with
  | _ n ih =>
    by_cases h : n < 10
    · obtain ⟨hd, ht, _, _⟩ := digitChar_spec n h
      refine ⟨by simp [natToChars_lt n h], by simp [natToChars_lt n h, hd], ?_⟩
      simp [natToChars_lt n h, parseVal, ht]
    · have h10 : 10 ≤ n := by omega
      have hlt : n / 10 < n := Nat.div_lt_self (by omega) (by omega)
      obtain ⟨ih1, ih2, ih3⟩ := ih (n / 10) hlt
      obtain ⟨hd, ht, _, _⟩ := digitChar_spec (n % 10) (Nat.mod_lt n (by omega))
      rw [natToChars_ge n h10]
      refine ⟨by simp, ?_, ?_⟩
      · simp [List.all_append, ih2, hd]
      · rw [parseVal_append_one, ih3, ht]
        omega

theorem jsToNumber_natToChars (n : Nat) :
    jsToNumber (.str (natToChars n)) = some n := by
  obtain ⟨h1, h2, h3⟩ := natToChars_roundtrip n
  simp [jsToNumber, h1, h2, h3]

theorem isDigit_ne_underscore (c : Char) (h : c.isDigit = true) :
    c ≠ '_' := by
  intro hc; subst hc; simp [Char.isDigit] at h

theorem isDigit_ne_dot (c : Char) (h : c.isDigit = true) : c ≠ '.' := by
  intro hc; subst hc; simp [Char.isDigit] at h

theorem getFileExtension_shape (p : PlatformOS) :
    ∃ tail, getFileExtension p = '.' :: tail ∧ ∀ c ∈ tail, c ≠ '_' := by
  cases p <;> exact ⟨_, rfl, by decide⟩

/-- Parsing a committed filename recovers the timestamp digits: the
date of a `rec_<t>.<ext>` entry is the string of `t`'s digits. -/
theorem extractDate_commitFilename (now : Nat) (p : PlatformOS) (t : Nat) :
    extractDate now (commitFilename p t) = .str (natToChars t) := by
  obtain ⟨hne, hdig, _⟩ := natToChars_roundtrip t
  obtain ⟨tail, htail, htailu⟩ := getFileExtension_shape p
  have hnd : ∀ c ∈ natToChars t, c.isDigit = true := by
    intro c hc; exact List.all_eq_true.mp hdig c hc
  have hsplit1 :
      splitOnChar '_' (commitFilename p t) =
        ['r', 'e', 'c'] :: splitOnChar '_' (natToChars t ++ getFileExtension p) := by
    show splitOnChar '_' (['r', 'e', 'c'] ++ '_' :: (natToChars t ++ getFileExtension p)) = _
    exact splitOnChar_append '_' _ _ (by decide)
  have hnou : ∀ c ∈ natToChars t ++ getFileExtension p, c ≠ '_' := by
    intro c hc
    rcases List.mem_append.mp hc with hc | hc
    · exact isDigit_ne_underscore c (hnd c hc)
    · rw [htail] at hc
      rcases List.mem_cons.mp hc with hc | hc
      · subst hc; decide
      · exact htailu c hc
  have hsplit2 :
      splitOnChar '.' (natToChars t ++ getFileExtension p) =
        natToChars t :: splitOnChar '.' tail := by
    rw [htail]
    exact splitOnChar_append '.' _ _
      (fun c hc => isDigit_ne_dot c (hnd c hc))
  rw [extractDate, hsplit1, splitOnChar_of_not_mem '_' _ hnou]
  simp only [List.get?]
  rw [hsplit2]
  simp [hne]

/-! ### Lemmas about the sort -/

theorem mem_jsSortInsert (x a : Entry) (l : List Entry) :
    x ∈ jsSortInsert a l ↔ x = a ∨ x ∈ l := by
  induction l with
  | nil => simp [jsSortInsert]
  | cons y ys ih =>
    by_cases h : jsCmp a y ≤ 0
    · simp [jsSortInsert, h]
    · simp only [jsSortInsert, h, if_false, List.mem_cons, ih]
      tauto

theorem jsSortInsert_perm (a : Entry) (l : List Entry) :
    List.Perm (jsSortInsert a l) (a :: l) := by
  induction l with
  | nil => simp [jsSortInsert]
  | cons y ys ih =>
    by_cases h : jsCmp a y ≤ 0
    · simp [jsSortInsert, h]
    · simp only [jsSortInsert, h, if_false]
      exact (ih.cons y).trans (List.Perm.swap a y ys)

theorem jsSort_perm (l : List Entry) : List.Perm (jsSort l) l := by
  induction l with
  | nil => rfl
  | cons x xs ih =>
    exact (jsSortInsert_perm x (jsSort xs)).trans (ih.cons x)

theorem mem_jsSort (x : Entry) (l : List Entry) :
    x ∈ jsSort l ↔ x ∈ l := (jsSort_perm l).mem_iff

/-- Inserting splits the target list: the passed-over head is exactly
the elements the comparator put strictly before `x`. -/
theorem jsSortInsert_split (x : Entry) (l : List Entry) :
    ∃ l1 l2, l = l1 ++ l2 ∧ jsSortInsert x l = l1 ++ x :: l2 ∧
      ∀ y ∈ l1, 0 < jsCmp x y := by
  induction l with
  | nil => exact ⟨[], [], rfl, rfl, by simp⟩
  | cons y ys ih =>
    by_cases h : jsCmp x y ≤ 0
    · exact ⟨[], y :: ys, rfl, by simp [jsSortInsert, h], by simp⟩
    · obtain ⟨l1, l2, he, hi, hp⟩ := ih
      refine ⟨y :: l1, l2, by simp [he], ?_, ?_⟩
      · simp [jsSortInsert, h, hi]
      · intro z hz
        rcases List.mem_cons.mp hz with hz | hz
        · subst hz; omega
        · exact hp z hz

/-- Stability of the modelled sort: any class of entries a predicate
carves out — provided the comparator never strictly reorders within it —
comes out of the sort in its original relative order. -/
theorem jsSort_filter_stable (p : Entry → Bool)
    (hp : ∀ x y, p x = true → 0 < jsCmp x y → p y = false) :
    ∀ l, (jsSort l).filter p = l.filter p := by
  intro l
  induction l with
  | nil => rfl
  | cons x xs ih =>
    show (jsSortInsert x (jsSort xs)).filter p = (x :: xs).filter p
    obtain ⟨l1, l2, he, hi, hpass⟩ := jsSortInsert_split x (jsSort xs)
    have hsplit : (jsSort xs).filter p = l1.filter p ++ l2.filter p := by
      rw [he, List.filter_append]
    by_cases hx : p x = true
    · have hl1 : l1.filter p = [] := by
        rw [List.filter_eq_nil_iff]
        intro a ha
        simp [hp x a hx (hpass a ha)]
      rw [hi, List.filter_append, hl1, List.nil_append,
        List.filter_cons_of_pos hx, List.filter_cons_of_pos hx,
        ← ih, hsplit, hl1, List.nil_append]
    · rw [hi, List.filter_append, List.filter_cons_of_neg hx,
        List.filter_cons_of_neg hx, ← List.filter_append, ← he, ih]

theorem jsCmp_of_numeric (x y : Entry) (nx ny : Nat)
    (hx : jsToNumber x.date = some nx) (hy : jsToNumber y.date = some ny) :
    jsCmp x y = (ny : Int) - (nx : Int) := by
  simp [jsCmp, hx, hy]

/-- Inserting an entry with a fresh numeric timestamp into a strictly
descending list keeps it strictly descending. -/
theorem jsSortInsert_pairwise (x : Entry) (nx : Nat)
    (hx : jsToNumber x.date = some nx) :
    ∀ l, (∀ y ∈ l, ∃ ny, jsToNumber y.date = some ny ∧ ny ≠ nx) →
      List.Pairwise dateGt l → List.Pairwise dateGt (jsSortInsert x l) := by
  intro l
  induction l with
  | nil => intro _ _; simp [jsSortInsert, List.pairwise_singleton]
  | cons y ys ih =>
    intro hnum hp
    obtain ⟨ny, hy, hne⟩ := hnum y (by simp)
    rcases List.pairwise_cons.mp hp with ⟨hyall, hys⟩
    by_cases h : jsCmp x y ≤ 0
    · have hcmp : (ny : Int) - (nx : Int) ≤ 0 := by
        rw [← jsCmp_of_numeric x y nx ny hx hy]; exact h
      have hlt : ny < nx := by omega
      rw [jsSortInsert, if_pos h]
      refine List.pairwise_cons.mpr ⟨?_, hp⟩
      intro z hz
      rcases List.mem_cons.mp hz with hz | hz
      · exact hz ▸ ⟨nx, ny, hx, hy, hlt⟩
      · obtain ⟨na, nb, ha, hb, hab⟩ := hyall z hz
        have : na = ny := by rw [hy] at ha; exact (Option.some_inj.mp ha).symm
        exact ⟨nx, nb, hx, hb, by omega⟩
    · have hcmp : 0 < (ny : Int) - (nx : Int) := by
        rw [← jsCmp_of_numeric x y nx ny hx hy]; omega
      have hlt : nx < ny := by omega
      rw [jsSortInsert, if_neg h]
      refine List.pairwise_cons.mpr ⟨?_, ?_⟩
      · intro z hz
        rcases (mem_jsSortInsert z x ys).mp hz with hz | hz
        · exact hz ▸ ⟨ny, nx, hy, hx, hlt⟩
        · exact hyall z hz
      · exact ih (fun z hz => hnum z (by simp [hz])) hys

/-- With all timestamps numeric and pairwise distinct, the modelled
sort produces a strictly descending list. -/
theorem jsSort_pairwise_gt (l : List Entry)
    (h1 : ∀ e ∈ l, ∃ n, jsToNumber e.date = some n)
    (h2 : List.Pairwise (fun a b => jsToNumber a.date ≠ jsToNumber b.date) l) :
    List.Pairwise dateGt (jsSort l) := by
  induction l with
  | nil => simp [jsSort]
  | cons x xs ih =>
    obtain ⟨nx, hx⟩ := h1 x (by simp)
    rcases List.pairwise_cons.mp h2 with ⟨hxall, hxs⟩
    show List.Pairwise dateGt (jsSortInsert x (jsSort xs))
    refine jsSortInsert_pairwise x nx hx (jsSort xs) ?_
      (ih (fun e he => h1 e (by simp [he])) hxs)
    intro y hy
    have hy' : y ∈ xs := (mem_jsSort y xs).mp hy
    obtain ⟨ny, hyn⟩ := h1 y (by simp [hy'])
    refine ⟨ny, hyn, ?_⟩
    intro hcontr
    exact hxall y hy' (by rw [hx, hyn, hcontr])

/-! ### Claim theorems -/

theorem commitEntry_date (now : Nat) (dir : List Char) (p : PlatformOS)
    (t : Nat) :
    jsToNumber (mkEntry now dir (commitFilename p t)).date = some t := by
  show jsToNumber (extractDate now (commitFilename p t)) = some t
  rw [extractDate_commitFilename]
  exact jsToNumber_natToChars t

/-- C1: over any sequence of committed recordings with pairwise
distinct millisecond timestamps, the catalog view is strictly
descending by timestamp; and the sort is stable — entries whose parsed
timestamps equal a given value come out in their original enumeration
order. -/
theorem c1_list_sorted_desc (p : PlatformOS) (dir : List Char) (now : Nat)
    (ts : List Nat) (hd : ts.Pairwise (fun a b => a ≠ b)) :
    List.Pairwise dateGt (fileList now dir (ts.map (commitFilename p))) ∧
    ∀ (files : List (List Char)) (n : Nat),
      (∀ f ∈ files, (jsToNumber (extractDate now f)).isSome = true) →
      (fileList now dir files).filter
          (fun e => decide (jsToNumber e.date = some n)) =
        (files.map (mkEntry now dir)).filter
          (fun e => decide (jsToNumber e.date = some n)) := by
  constructor
  · rw [fileList, List.map_map]
    apply jsSort_pairwise_gt
    · intro e he
      obtain ⟨t, ht, rfl⟩ := List.mem_map.mp he
      exact ⟨t, commitEntry_date now dir p t⟩
    · refine List.Pairwise.map _ ?_ hd
      intro a b hab
      simp only [Function.comp_apply, commitEntry_date]
      intro hcontr
      exact hab (Option.some_inj.mp hcontr)
  · intro files n _
    rw [fileList]
    apply jsSort_filter_stable
    intro x y hx hcmp
    have hxn : jsToNumber x.date = some n := of_decide_eq_true hx
    cases hy : jsToNumber y.date with
    | none => simp [jsCmp, hxn, hy] at hcmp
    | some m =>
      have hc : jsCmp x y = (m : Int) - (n : Int) := by
        simp [jsCmp, hxn, hy]
      rw [hc] at hcmp
      simp only [hy, decide_eq_false_iff_not, Option.some_inj]
      omega

/-- C1 (witness): committing at t=100, t=200, t=150 yields the order
t=200, t=150, t=100; and two entries sharing timestamp 7 keep their
enumeration order through the sort. -/
theorem c1_list_sorted_desc_witness :
    List.Pairwise dateGt
      (fileList 0 []
        (([100, 200, 150] : List Nat).map (commitFilename .ios))) ∧
    (fileList 0 []
        (([100, 200, 150] : List Nat).map (commitFilename .ios))).map
        Entry.name =
      [commitFilename .ios 200, commitFilename .ios 150,
        commitFilename .ios 100] ∧
    (fileList 0 [] [['r', 'e', 'c', '_', '7', '.', 'w', 'a', 'v'],
        ['r', 'e', 'c', '_', '7', '.', 'o', 'g', 'g']]).filter
        (fun e => decide (jsToNumber e.date = some 7)) =
      ([['r', 'e', 'c', '_', '7', '.', 'w', 'a', 'v'],
        ['r', 'e', 'c', '_', '7', '.', 'o', 'g', 'g']].map
          (mkEntry 0 [])).filter
        (fun e => decide (jsToNumber e.date = some 7)) := by
  have h := c1_list_sorted_desc .ios [] 0 [100, 200, 150] (by decide)
  exact ⟨h.1, by decide,
    h.2 [['r', 'e', 'c', '_', '7', '.', 'w', 'a', 'v'],
      ['r', 'e', 'c', '_', '7', '.', 'o', 'g', 'g']] 7 (by decide)⟩

/-- C2 (counterexample): the filename `rec_abc.mp3` has a present but
non-numeric timestamp segment.  `list()` does include it, but its date
is the verbatim string `"abc"`, not the current wall-clock time `999` —
refuting "assigning it the current wall-clock time as its timestamp
surrogate". -/
theorem c2_nonnumeric_segment_keeps_string :
    (fileList 999 []
        [['r', 'e', 'c', '_', 'a', 'b', 'c', '.', 'm', 'p', '3']]).map
        Entry.date = [.str ['a', 'b', 'c']] ∧
    JsVal.str ['a', 'b', 'c'] ≠ JsVal.num 999 :=
  ⟨by decide, by decide⟩

/-- C2 (amended): every filename — matching the pattern or not —
appears exactly once in `list()` with its derived date; the wall-clock
surrogate applies exactly when the timestamp segment is absent or
empty, while a present non-empty segment (numeric or not) becomes the
entry's date verbatim. -/
theorem c2_lenient_inclusion (now : Nat) (dir : List Char)
    (files : List (List Char)) :
    List.Perm ((fileList now dir files).map Entry.name) files ∧
    (∀ f ∈ files, ∃ e ∈ fileList now dir files,
      e.name = f ∧ e.uri = dir ++ f ∧ e.date = extractDate now f) ∧
    (∀ f, (splitOnChar '_' f).get? 1 = none →
      extractDate now f = .num now) ∧
    ∀ f s, (splitOnChar '_' f).get? 1 = some s →
      (splitOnChar '.' s).headD [] ≠ [] →
      extractDate now f = .str ((splitOnChar '.' s).headD []) := by
  refine ⟨?_, ?_, ?_, ?_⟩
  · rw [fileList]
    have hperm := (jsSort_perm (files.map (mkEntry now dir))).map Entry.name
    refine hperm.trans ?_
    have hmap : (files.map (mkEntry now dir)).map Entry.name = files := by
      rw [List.map_map]
      simp [mkEntry, Function.comp_def]
    rw [hmap]
  · intro f hf
    refine ⟨mkEntry now dir f, ?_, rfl, rfl, rfl⟩
    rw [fileList, mem_jsSort]
    exact List.mem_map_of_mem _ hf
  · intro f hf
    unfold extractDate
    rw [hf]
  · intro f s hs hseg
    unfold extractDate
    rw [hs]
    show (if (splitOnChar '.' s).headD [] = [] then JsVal.num now
      else JsVal.str ((splitOnChar '.' s).headD [])) =
      JsVal.str ((splitOnChar '.' s).headD [])
    rw [if_neg hseg]

/-- C2 (witness): a pattern-less name and an unparsable name are both
listed; the unparsable one keeps its verbatim segment. -/
theorem c2_lenient_inclusion_witness :
    List.Perm
      ((fileList 999 []
          [['r', 'e', 'c', '_', 'a', 'b', 'c', '.', 'm', 'p', '3'],
            ['n', 'o', 't', 'e']]).map Entry.name)
      [['r', 'e', 'c', '_', 'a', 'b', 'c', '.', 'm', 'p', '3'],
        ['n', 'o', 't', 'e']] ∧
    extractDate 999 ['n', 'o', 't', 'e'] = .num 999 ∧
    extractDate 999 ['r', 'e', 'c', '_', 'a', 'b', 'c', '.', 'm', 'p', '3'] =
      .str ['a', 'b', 'c'] := by
  have h := c2_lenient_inclusion 999 []
    [['r', 'e', 'c', '_', 'a', 'b', 'c', '.', 'm', 'p', '3'],
      ['n', 'o', 't', 'e']]
  refine ⟨h.1, h.2.2.1 ['n', 'o', 't', 'e'] (by decide), ?_⟩
  rw [h.2.2.2 ['r', 'e', 'c', '_', 'a', 'b', 'c', '.', 'm', 'p', '3']
    ['a', 'b', 'c', '.', 'm', 'p', '3'] (by decide) (by decide)]
  decide

/-- C7: deleting the identity currently loaded for playback fully
unloads the resource before the file delete (the effect order shows
unload, then delete, then re-enumerate), clears the playback identity
and flag, and the rebuilt catalog contains no entry with that uri. -/
theorem c7_delete_active_releases_and_removes (dir : List Char)
    (now : Nat) (st : AppState) (files : List (List Char))
    (uri : List Char) (h : Nat) (hs : st.sound = some h)
    (hu : st.playingUri = some uri)
    (hex : ∃ f ∈ files, dir ++ f = uri) :
    (deleteRecording dir now st files uri).1.playingUri = none ∧
    (deleteRecording dir now st files uri).1.isPlaying = false ∧
    (deleteRecording dir now st files uri).2.2 =
      [.soundUnloaded h, .fileDeleted uri, .dirListed] ∧
    ∀ e ∈ (deleteRecording dir now st files uri).1.recordings,
      e.uri ≠ uri := by
  have hred : deleteRecording dir now st files uri =
      ({ st with
          playingUri := none, isPlaying := false,
          recordings := fileList now dir
            (files.filter (fun f => decide (¬dir ++ f = uri))) },
        files.filter (fun f => decide (¬dir ++ f = uri)),
        [.soundUnloaded h, .fileDeleted uri, .dirListed]) := by
    simp [deleteRecording, hs, hu, hex]
  rw [hred]
  refine ⟨rfl, rfl, rfl, ?_⟩
  intro e he
  rw [fileList, mem_jsSort] at he
  obtain ⟨f, hf, rfl⟩ := List.mem_map.mp he
  have hfm : ¬dir ++ f = uri :=
    of_decide_eq_true ((List.mem_filter.mp hf).2)
  simpa [mkEntry] using hfm

/-- C7 (witness): deleting `['a']` while it is the loaded, playing
sound. -/
theorem c7_delete_active_releases_and_removes_witness :
    (deleteRecording [] 0
        { recording := none, sound := some 2, isRecording := false,
          isPlaying := true, playingUri := some ['a'], recordings := [] }
        [['a']] ['a']).1.playingUri = none ∧
    (deleteRecording [] 0
        { recording := none, sound := some 2, isRecording := false,
          isPlaying := true, playingUri := some ['a'], recordings := [] }
        [['a']] ['a']).2.2 =
      [.soundUnloaded 2, .fileDeleted ['a'], .dirListed] := by
  have h := c7_delete_active_releases_and_removes [] 0
    { recording := none, sound := some 2, isRecording := false,
      isPlaying := true, playingUri := some ['a'], recordings := [] }
    [['a']] ['a'] 2 rfl rfl ⟨['a'], by decide, by decide⟩
  exact ⟨h.1, h.2.2.1⟩

/-- C3 (counterexample): `startRecording` has no state guard.  From a
state whose capture is in progress (`isRecording = true`, handle `0`),
calling it with permission granted and a successful device open emits a
`captureOpened` effect for a second resource and overwrites the
session's handle — refuting "no second hardware capture resource is
opened and the existing capture session is unchanged". -/
theorem c3_start_while_recording_opens_second_resource :
    (startRecording
        { recording := some 0, sound := none, isRecording := true,
          isPlaying := false, playingUri := none, recordings := [] }
        .granted
        { requestResult := .ok .granted, audioModeResult := .ok (),
          openResult := .ok 1 }).2 =
      [.setAudioMode, .captureOpened 1] ∧
    (startRecording
        { recording := some 0, sound := none, isRecording := true,
          isPlaying := false, playingUri := none, recordings := [] }
        .granted
        { requestResult := .ok .granted, audioModeResult := .ok (),
          openResult := .ok 1 }).1.recording = some 1 :=
  ⟨rfl, rfl⟩

/-- C3 (amended): exclusivity is enforced by the UI wiring, not by the
state machine — the record button dispatches `stopRecording` whenever
`isRecording` is set, so a button press during a capture never opens a
capture resource. -/
theorem c3_button_never_opens_second_resource (p : PlatformOS)
    (dir : List Char) (now : Nat) (tempUri : List Char) (st : AppState)
    (files : List (List Char)) (permStatus : PermStatus)
    (sinp : StartInputs) (moveOk : Bool) (h : st.isRecording = true) :
    ∀ hnd, Effect.captureOpened hnd ∉
      (recordButtonPress p dir now tempUri st files permStatus sinp
        moveOk).2.2 := by
  intro hnd
  rw [recordButtonPress, if_pos h]
  cases hr : st.recording with
  | none => simp [stopRecording, hr]
  | some hcap => cases moveOk <;> simp [stopRecording, hr]

/-- C3 (witness): the amended theorem applied at a concrete in-progress
state. -/
theorem c3_button_never_opens_second_resource_witness :
    Effect.captureOpened 9 ∉
      (recordButtonPress .ios [] 5 ['t']
        { recording := some 0, sound := none, isRecording := true,
          isPlaying := false, playingUri := none, recordings := [] }
        [] .granted
        { requestResult := .ok .granted, audioModeResult := .ok (),
          openResult := .ok 9 }
        true).2.2 :=
  c3_button_never_opens_second_resource .ios [] 5 ['t'] _ [] .granted _
    true rfl 9

/-- C4 (counterexample): with the permission status `denied` and the
request also resolving denied, `startRecording` still proceeds: it
configures the audio mode, opens the capture device, and stores the
handle — refuting "it never proceeds to open the recording device as if
permission were granted". -/
theorem c4_denied_still_opens_device :
    (startRecording
        { recording := none, sound := none, isRecording := false,
          isPlaying := false, playingUri := none, recordings := [] }
        .denied
        { requestResult := .ok .denied, audioModeResult := .ok (),
          openResult := .ok 7 }).2 =
      [.requestPermission, .setAudioMode, .captureOpened 7] ∧
    (startRecording
        { recording := none, sound := none, isRecording := false,
          isPlaying := false, playingUri := none, recordings := [] }
        .denied
        { requestResult := .ok .denied, audioModeResult := .ok (),
          openResult := .ok 7 }).1.recording = some 7 :=
  ⟨rfl, rfl⟩

/-- C4 (amended): `startRecording` requests permission when the status
is not granted but ignores the outcome and always proceeds toward the
device open.  Denial surfaces only if a platform call throws; in that
case the `catch` alerts, no capture resource is acquired, and every
state cell is left unchanged. -/
theorem c4_open_failure_leaves_state_unchanged (st : AppState)
    (permStatus : PermStatus) (rr : Except Unit PermStatus)
    (amr : Except Unit Unit) :
    (startRecording st permStatus ⟨rr, amr, .error ()⟩).1 = st ∧
    (∀ h, Effect.captureOpened h ∉
      (startRecording st permStatus ⟨rr, amr, .error ()⟩).2) ∧
    Effect.alertShown ∈
      (startRecording st permStatus ⟨rr, amr, .error ()⟩).2 ∧
    ∀ q h, permStatus ≠ .granted →
      (startRecording st permStatus
        ⟨.ok q, .ok (), .ok h⟩).1.recording = some h := by
  refine ⟨?_, ?_, ?_, ?_⟩
  · by_cases hg : permStatus = .granted <;>
      cases rr <;> cases amr <;> simp [startRecording, startAfterPerm, hg]
  · intro h
    by_cases hg : permStatus = .granted <;>
      cases rr <;> cases amr <;> simp [startRecording, startAfterPerm, hg]
  · by_cases hg : permStatus = .granted <;>
      cases rr <;> cases amr <;> simp [startRecording, startAfterPerm, hg]
  · intro q h hg
    simp [startRecording, startAfterPerm, hg]

/-- C4 (witness): the amended theorem applied at a concrete denied
state. -/
theorem c4_open_failure_leaves_state_unchanged_witness :
    (startRecording
        { recording := none, sound := none, isRecording := false,
          isPlaying := false, playingUri := none, recordings := [] }
        .denied
        ⟨.ok .denied, .ok (), .error ()⟩).1 =
      { recording := none, sound := none, isRecording := false,
        isPlaying := false, playingUri := none, recordings := [] } ∧
    (startRecording
        { recording := none, sound := none, isRecording := false,
          isPlaying := false, playingUri := none, recordings := [] }
        .denied
        ⟨.ok .denied, .ok (), .ok 3⟩).1.recording = some 3 := by
  have h := c4_open_failure_leaves_state_unchanged
    { recording := none, sound := none, isRecording := false,
      isPlaying := false, playingUri := none, recordings := [] }
    .denied (.ok .denied) (.ok ())
  exact ⟨h.1, h.2.2.2 .denied 3 (by decide)⟩

/-- C5: toggling the identity that is currently playing pauses the
resource (no unload) and clears `isPlaying` only; hence two toggles in
a row starting from a state with no loaded sound end with the sound
still loaded and associated to the identity, paused — not back to
`Empty`. -/
theorem c5_toggle_same_pauses (st : AppState) (uri : List Char) (h : Nat)
    (cr cr' : Except Unit Nat) (hs : st.sound = some h)
    (hu : st.playingUri = some uri) (hp : st.isPlaying = true) :
    playSound st uri cr =
      ({ st with isPlaying := false }, [.soundPaused h]) ∧
    ∀ st0 : AppState, st0.sound = none →
      (playSound (playSound st0 uri (.ok h)).1 uri cr').1 =
        { st0 with
            sound := some h, playingUri := some uri,
            isPlaying := false } ∧
      (playSound (playSound st0 uri (.ok h)).1 uri cr').2 =
        [.soundPaused h] := by
  constructor
  · simp [playSound, hs, hu, hp]
  · intro st0 hs0
    constructor <;> simp [playSound, mkPlay, hs0]

/-- C5 (witness): two toggles on `['a']` from the empty playback state
end paused with the sound loaded. -/
theorem c5_toggle_same_pauses_witness :
    (playSound
      (playSound
        { recording := none, sound := none, isRecording := false,
          isPlaying := false, playingUri := none, recordings := [] }
        ['a'] (.ok 4)).1
      ['a'] (.error ())).1 =
      { recording := none, sound := some 4, isRecording := false,
        isPlaying := false, playingUri := some ['a'], recordings := [] } := by
  have h := (c5_toggle_same_pauses
    { recording := none, sound := some 4, isRecording := false,
      isPlaying := true, playingUri := some ['a'], recordings := [] }
    ['a'] 4 (.error ()) (.error ()) rfl rfl rfl).2
    { recording := none, sound := none, isRecording := false,
      isPlaying := false, playingUri := none, recordings := [] } rfl
  exact h.1

/-- C6: toggling a different identity while one is loaded and playing
first unloads the old resource, then creates and auto-plays the new
one, ending loaded on the new identity; the effect order shows the
release happens before the new load, and the state holds only the new
handle. -/
theorem c6_toggle_switch_unloads_old (st : AppState) (h1 h2 : Nat)
    (uri1 uri2 : List Char) (hs : st.sound = some h1)
    (hu : st.playingUri = some uri1) (_hp : st.isPlaying = true)
    (hne : uri1 ≠ uri2) :
    playSound st uri2 (.ok h2) =
      ({ st with
          sound := some h2, playingUri := some uri2,
          isPlaying := true },
        [.soundUnloaded h1, .soundCreated h2 uri2]) := by
  have hcond : ¬(st.playingUri = some uri2 ∧ st.isPlaying = true) := by
    rw [hu]
    rintro ⟨hc, _⟩
    exact hne (Option.some_inj.mp hc)
  simp [playSound, hs, hcond, mkPlay]

/-- C6 (witness): switching from `['a']` to `['b']`. -/
theorem c6_toggle_switch_unloads_old_witness :
    playSound
      { recording := none, sound := some 4, isRecording := false,
        isPlaying := true, playingUri := some ['a'], recordings := [] }
      ['b'] (.ok 6) =
      ({ recording := none, sound := some 6, isRecording := false,
          isPlaying := true, playingUri := some ['b'], recordings := [] },
        [.soundUnloaded 4, .soundCreated 6 ['b']]) :=
  c6_toggle_switch_unloads_old _ 4 6 ['a'] ['b'] rfl rfl rfl (by decide)

/-- C8 (counterexample): on natural end of content the registered
callback leaves the sound handle in place and performs no unload — the
audio resource is not released, refuting "the audio resource is fully
released". -/
theorem c8_finish_does_not_release :
    (onPlaybackStatusUpdate
        { recording := none, sound := some 5, isRecording := false,
          isPlaying := true, playingUri := some ['a'], recordings := [] }
        true).1.sound = some 5 ∧
    (onPlaybackStatusUpdate
        { recording := none, sound := some 5, isRecording := false,
          isPlaying := true, playingUri := some ['a'], recordings := [] }
        true).2 = [] :=
  ⟨rfl, rfl⟩

/-- C8 (amended): on `didJustFinish` the callback clears `isPlaying`
and `activeIdentity` (`playingUri`), leaves every other cell — in
particular the loaded sound handle — unchanged, and performs no
platform call, so the resource stays loaded rather than being
released. -/
theorem c8_finish_clears_identity_only (st : AppState) :
    (onPlaybackStatusUpdate st true).1.playingUri = none ∧
    (onPlaybackStatusUpdate st true).1.isPlaying = false ∧
    (onPlaybackStatusUpdate st true).1.sound = st.sound ∧
    (onPlaybackStatusUpdate st true).1.recording = st.recording ∧
    (onPlaybackStatusUpdate st true).1.recordings = st.recordings ∧
    (onPlaybackStatusUpdate st true).2 = [] := by
  simp [onPlaybackStatusUpdate]

/-- C9: a failure anywhere in `loadRecordings`'s try block leaves the
whole state — in particular the previously visible ordered sequence —
untouched, while a success replaces the view wholesale with a rebuild
computed from the directory content alone. -/
theorem c9_load_failure_leaves_view (now : Nat) (dir : List Char)
    (st : AppState) :
    loadRecordings now dir st (.error ()) = (st, []) ∧
    ∀ files, (loadRecordings now dir st (.ok files)).1 =
      { st with recordings := fileList now dir files } :=
  ⟨rfl, fun _ => rfl⟩

/-- C10: `stopRecording` with no capture handle returns before touching
anything: the state is unchanged, the directory is unchanged, and no
platform call (move, commit, enumerate) is made. -/
theorem c10_stop_without_capture_noop (p : PlatformOS) (dir : List Char)
    (now : Nat) (tempUri : List Char) (st : AppState)
    (files : List (List Char)) (moveOk : Bool)
    (h : st.recording = none) :
    stopRecording p dir now tempUri st files moveOk = (st, files, []) := by
  simp [stopRecording, h]

/-- C10 (witness): the theorem applied at a concrete captureless
state. -/
theorem c10_stop_without_capture_noop_witness :
    stopRecording .android [] 3 ['t']
      { recording := none, sound := some 2, isRecording := false,
        isPlaying := true, playingUri := some ['a'], recordings := [] }
      [['x']] true =
      ({ recording := none, sound := some 2, isRecording := false,
          isPlaying := true, playingUri := some ['a'], recordings := [] },
        [['x']], []) :=
  c10_stop_without_capture_noop .android [] 3 ['t'] _ [['x']] true rfl

end RecApp
